import Mathlib

/-!
Verification of the subscriber-ledger bot (`src/main.py.py`) against its
natural-language specification.

Modelling conventions for the shallow embedding:
* Python floats are modelled as rationals (`ℚ`).  All concrete inputs used in
  counterexamples and witnesses are dyadic rationals, on which Python's float
  arithmetic is exact.
* Python's `int(round(x))` (round half to even) is modelled by `pythonRound`.
* Python strings are Lean `String`s; per-character operations work on
  `String.data`.  Python's `str.lower` is modelled by the ASCII `Char.toLower`
  (the repository's data is Arabic and digits, on which both are the identity).
* The pandas DataFrame of subscribers is modelled as a `List Row` (positional
  indices, matching the default `RangeIndex` the code uses), and for the
  matcher a projected column is a `List String` keyed by its header.
-/

/-- Python's built-in `round` to an integer: round half to even. -/
def pythonRound (q : ℚ) : ℤ :=
  let f : ℤ := ⌊q⌋
  let r : ℚ := q - f
  if r < 1/2 then f
  else if 1/2 < r then f + 1
  else if 2 ∣ f then f else f + 1

/-- One subscriber record (one row of the Excel sheet after `map_headers`).
The two trailing `Option` fields model the optional display-alias columns
«مستهلك/وحده» and «مستهلك/ريال», present only when the sheet has them. -/
structure Row where
  name : String
  phone : String
  meter : String
  prevReading : ℚ
  currReading : ℚ
  consumption : ℚ
  consumptionValue : ℚ
  arrears : ℚ
  total : ℚ
  paid : ℚ
  remaining : ℚ
  aliasUnits : Option ℚ
  aliasValue : Option ℚ
  deriving DecidableEq

/-- The function `recompute_row` from the source: recomputes the four derived fields of a
record from `currReading`, `prevReading`, `arrears`, `paid` and the
process-wide unit price, and mirrors them into the alias columns if present. -/
def recompute_row (row : Row) (price : ℚ) : Row :=
  let current := row.currReading
  let prev := row.prevReading
  let cons := max (current - prev) 0
  let cons_val := cons * price
  let arrears := row.arrears
  let paid := row.paid
  let total := arrears + cons_val
  let remain := total - paid
  { row with
    consumption := ((pythonRound cons : ℤ) : ℚ)
    consumptionValue := ((pythonRound cons_val : ℤ) : ℚ)
    total := ((pythonRound total : ℤ) : ℚ)
    remaining := ((pythonRound remain : ℤ) : ℚ)
    aliasUnits := row.aliasUnits.map (fun _ => ((pythonRound cons : ℤ) : ℚ))
    aliasValue := row.aliasValue.map (fun _ => ((pythonRound cons_val : ℤ) : ℚ)) }

/-- The roll-forward commit of `handle_value_input` when the edited column is
«القراءة الحالية»: previous reading becomes the old current reading, arrears
becomes the old stored remaining (replacement), paid is reset to zero, the new
current reading is stored, and the row is recomputed. -/
def applyReadingUpdate (r : Row) (v price : ℚ) : Row :=
  recompute_row
    { r with
      prevReading := r.currReading
      arrears := r.remaining
      paid := 0
      currReading := v }
    price

/-- A zero/empty record, used for concrete instances. -/
def rowZero : Row :=
  { name := "", phone := "", meter := "",
    prevReading := 0, currReading := 0, consumption := 0, consumptionValue := 0,
    arrears := 0, total := 0, paid := 0, remaining := 0,
    aliasUnits := none, aliasValue := none }

/-- The spec's roll-forward example record before the reading update:
prevReading 10, currReading 50, arrears 0, paid 30, recomputed at unit price
700. -/
def rollForwardStart : Row :=
  recompute_row
    { rowZero with prevReading := 10, currReading := 50, arrears := 0, paid := 30 }
    700

/-- Claim C1: roll-forward on committing a new current reading.  For every
record and new value, the commit sets prevReading to the old currReading,
arrears to the old stored remaining (replacing it), paid to 0, currReading to
the new value, and recomputes the derived fields; on the spec's concrete
example (prev 10, curr 50, arrears 0, paid 30, price 700) updating the reading
to 80 yields prev 50, arrears 27970, paid 0, consumption 30, consumptionValue
21000, total 48970, remaining 48970. -/
theorem rollforward_spec :
    (∀ (r : Row) (v price : ℚ),
      (applyReadingUpdate r v price).prevReading = r.currReading ∧
      (applyReadingUpdate r v price).arrears = r.remaining ∧
      (applyReadingUpdate r v price).paid = 0 ∧
      (applyReadingUpdate r v price).currReading = v ∧
      (applyReadingUpdate r v price).consumption =
        ((pythonRound (max (v - r.currReading) 0) : ℤ) : ℚ) ∧
      (applyReadingUpdate r v price).consumptionValue =
        ((pythonRound (max (v - r.currReading) 0 * price) : ℤ) : ℚ) ∧
      (applyReadingUpdate r v price).total =
        ((pythonRound (r.remaining + max (v - r.currReading) 0 * price) : ℤ) : ℚ) ∧
      (applyReadingUpdate r v price).remaining =
        ((pythonRound (r.remaining + max (v - r.currReading) 0 * price - 0) : ℤ) : ℚ)) ∧
    ((applyReadingUpdate rollForwardStart 80 700).prevReading = 50 ∧
     (applyReadingUpdate rollForwardStart 80 700).arrears = 27970 ∧
     (applyReadingUpdate rollForwardStart 80 700).paid = 0 ∧
     (applyReadingUpdate rollForwardStart 80 700).currReading = 80 ∧
     (applyReadingUpdate rollForwardStart 80 700).consumption = 30 ∧
     (applyReadingUpdate rollForwardStart 80 700).consumptionValue = 21000 ∧
     (applyReadingUpdate rollForwardStart 80 700).total = 48970 ∧
     (applyReadingUpdate rollForwardStart 80 700).remaining = 48970) := by
  constructor
  · intro r v price
    refine ⟨rfl, rfl, rfl, rfl, rfl, rfl, rfl, rfl⟩
  · have h1 : rollForwardStart =
        ⟨"", "", "", 10, 50, 40, 28000, 0, 28000, 30, 27970, none, none⟩ := by
      simp only [rollForwardStart, rowZero, recompute_row, pythonRound, Row.mk.injEq]
      norm_num [max_def]
    have h2 : applyReadingUpdate
        (⟨"", "", "", 10, 50, 40, 28000, 0, 28000, 30, 27970, none, none⟩ : Row) 80 700 =
        ⟨"", "", "", 50, 80, 30, 21000, 27970, 48970, 0, 48970, none, none⟩ := by
      simp only [applyReadingUpdate, recompute_row, pythonRound, Row.mk.injEq]
      norm_num [max_def]
    rw [h1, h2]
    exact ⟨rfl, rfl, rfl, rfl, rfl, rfl, rfl, rfl⟩

/-- Claim C4: recompute is idempotent — applying it a second time with the
same unit price changes nothing, for every record and every unit price
p ≥ 0. -/
theorem recompute_row_idem (r : Row) (p : ℚ) (_hp : 0 ≤ p) :
    recompute_row (recompute_row r p) p = recompute_row r p := by
  obtain ⟨n, ph, m, pr, cu, co, cv, ar, tot, pa, re, au, av⟩ := r
  cases au <;> cases av <;> rfl

/-- Witness for C4 at a concrete record and unit price 700. -/
theorem recompute_row_idem_witness :
    recompute_row (recompute_row rollForwardStart 700) 700 = recompute_row rollForwardStart 700 :=
  recompute_row_idem rollForwardStart 700 (by norm_num)

/-- Claim C5: recompute only writes the derived fields — the authoritative
fields arrears, paid, prevReading, currReading and the non-derived text
fields name, phone, meterId are returned unchanged for every input record. -/
theorem recompute_row_frame (r : Row) (p : ℚ) :
    (recompute_row r p).name = r.name ∧
    (recompute_row r p).phone = r.phone ∧
    (recompute_row r p).meter = r.meter ∧
    (recompute_row r p).prevReading = r.prevReading ∧
    (recompute_row r p).currReading = r.currReading ∧
    (recompute_row r p).arrears = r.arrears ∧
    (recompute_row r p).paid = r.paid :=
  ⟨rfl, rfl, rfl, rfl, rfl, rfl, rfl⟩

/-- A record with a fractional current reading (0.5, exactly representable in
a Python float), exhibiting the difference between rounding before and after
the multiplication by the unit price. -/
def halfReadingRow : Row :=
  { rowZero with currReading := 1/2 }

/-- Counterexample to claim C3: at prevReading 0, currReading 0.5, unit price
700, the code stores consumptionValue 350 = round(0.5 × 700), which differs
from round(round(0.5) × 700) = 0 — so step 2 does not use the already-rounded
integer consumption. -/
theorem consumption_value_not_from_rounded :
    ¬ ((recompute_row halfReadingRow 700).consumptionValue =
        ((pythonRound
            (((pythonRound (max (halfReadingRow.currReading - halfReadingRow.prevReading) 0) : ℤ) : ℚ)
              * 700) : ℤ) : ℚ)) := by
  have hL : (recompute_row halfReadingRow 700).consumptionValue = 350 := by
    simp only [halfReadingRow, rowZero, recompute_row, pythonRound]
    norm_num [max_def, Int.floor_eq_iff]
  have hr0 : pythonRound (max (halfReadingRow.currReading - halfReadingRow.prevReading) 0) = 0 := by
    simp only [halfReadingRow, rowZero, pythonRound]
    norm_num [max_def, Int.floor_eq_iff]
  rw [hL, hr0]
  norm_num [pythonRound]

/-- Claim C3 (amended): step 1 stores consumption = round(max(curr − prev, 0));
step 2 stores consumptionValue = round(max(curr − prev, 0) × unitPrice),
computed from the unrounded consumption, not from the rounded integer of
step 1. -/
theorem consumption_value_from_raw (r : Row) (p : ℚ) :
    (recompute_row r p).consumption =
      ((pythonRound (max (r.currReading - r.prevReading) 0) : ℤ) : ℚ) ∧
    (recompute_row r p).consumptionValue =
      ((pythonRound (max (r.currReading - r.prevReading) 0 * p) : ℤ) : ℚ) :=
  ⟨rfl, rfl⟩

/-- A rational that is an integer (the value a Python float holds after the
relevant field was only ever assigned whole numbers). -/
def qInt (q : ℚ) : Prop := ∃ n : ℤ, q = (n : ℚ)

/-- The spec's three record invariants: consumption = max(curr − prev, 0),
total = arrears + consumptionValue, remaining = total − paid. -/
def rowInvariants (r : Row) : Prop :=
  r.consumption = max (r.currReading - r.prevReading) 0 ∧
  r.total = r.arrears + r.consumptionValue ∧
  r.remaining = r.total - r.paid

/-- The write paths of the conversation engine that touch the authoritative
fields (branches of `handle_value_input` and the final step of
`handle_add_subscriber_flow`); every one of them ends in `recompute_row` and a
save. -/
inductive Mutation where
  | readingUpdate (v : ℚ)
  | payment (v : ℚ)
  | editArrears (v : ℚ)
  | editName (s : String)
  | editPhone (s : String)
  | addSubscriber (name phone meter : String) (prev curr arrears paid : ℚ)

/-- The record-level effect of each mutation, as committed by the code. -/
def applyMutation (m : Mutation) (r : Row) (price : ℚ) : Row :=
  match m with
  | .readingUpdate v => applyReadingUpdate r v price
  | .payment v => recompute_row { r with paid := v } price
  | .editArrears v => recompute_row { r with arrears := v } price
  | .editName s => recompute_row { r with name := s } price
  | .editPhone s => recompute_row { r with phone := s } price
  | .addSubscriber n ph mt prev curr arr pd =>
      recompute_row
        { name := n, phone := ph, meter := mt, prevReading := prev, currReading := curr,
          consumption := 0, consumptionValue := 0, arrears := arr, total := 0,
          paid := pd, remaining := 0, aliasUnits := none, aliasValue := none }
        price

/-- The numeric arguments carried by a mutation are whole numbers. -/
def mutationIntegral : Mutation → Prop
  | .readingUpdate v => qInt v
  | .payment v => qInt v
  | .editArrears v => qInt v
  | .editName _ => True
  | .editPhone _ => True
  | .addSubscriber _ _ _ prev curr arr pd => qInt prev ∧ qInt curr ∧ qInt arr ∧ qInt pd

/-- Rounding is the identity on integers. -/
theorem pythonRound_intCast (n : ℤ) : pythonRound ((n : ℤ) : ℚ) = n := by
  norm_num [pythonRound]

/-- Rounding leaves an integral rational unchanged (as a rational). -/
theorem pythonRound_qInt (q : ℚ) (h : qInt q) : ((pythonRound q : ℤ) : ℚ) = q := by
  obtain ⟨n, rfl⟩ := h
  rw [pythonRound_intCast]

/-- With integral authoritative fields and an integral unit price, recompute
restores the spec's three identities exactly (rounding is the identity). -/
theorem recompute_row_invariants (r : Row) (p : ℚ)
    (h1 : qInt r.prevReading) (h2 : qInt r.currReading) (h3 : qInt r.arrears)
    (h4 : qInt r.paid) (hp : qInt p) :
    rowInvariants (recompute_row r p) := by
  obtain ⟨a, ha⟩ := h1
  obtain ⟨b, hb⟩ := h2
  obtain ⟨c, hc⟩ := h3
  obtain ⟨d, hd⟩ := h4
  obtain ⟨e, he⟩ := hp
  have hcons : qInt (max (r.currReading - r.prevReading) 0) := by
    refine ⟨max (b - a) 0, ?_⟩
    rw [ha, hb]
    push_cast
    rfl
  obtain ⟨k, hk⟩ := hcons
  have hcv : qInt (max (r.currReading - r.prevReading) 0 * p) := ⟨k * e, by rw [hk, he]; push_cast; rfl⟩
  have htot : qInt (r.arrears + max (r.currReading - r.prevReading) 0 * p) :=
    ⟨c + k * e, by rw [hc, hk, he]; push_cast; rfl⟩
  have hrem : qInt (r.arrears + max (r.currReading - r.prevReading) 0 * p - r.paid) :=
    ⟨c + k * e - d, by rw [hc, hd, hk, he]; push_cast; rfl⟩
  refine ⟨?_, ?_, ?_⟩
  · exact pythonRound_qInt _ ⟨k, hk⟩
  · show ((pythonRound (r.arrears + max (r.currReading - r.prevReading) 0 * p) : ℤ) : ℚ) =
      r.arrears + ((pythonRound (max (r.currReading - r.prevReading) 0 * p) : ℤ) : ℚ)
    rw [pythonRound_qInt _ htot, pythonRound_qInt _ hcv]
  · show ((pythonRound (r.arrears + max (r.currReading - r.prevReading) 0 * p - r.paid) : ℤ) : ℚ) =
      ((pythonRound (r.arrears + max (r.currReading - r.prevReading) 0 * p) : ℤ) : ℚ) - r.paid
    rw [pythonRound_qInt _ hrem, pythonRound_qInt _ htot]

/-- Counterexample to claim C2: editing arrears to 0.5 (a legal float input)
on an all-zero record and recomputing stores total = round(0.5) = 0, which
violates total = arrears + consumptionValue (0 ≠ 0.5 + 0). -/
theorem invariants_cex :
    ¬ rowInvariants (applyMutation (.editArrears (1/2)) rowZero 700) := by
  intro h
  have h2 := h.2.1
  simp only [applyMutation, rowZero, recompute_row, pythonRound] at h2
  norm_num [max_def, Int.floor_eq_iff] at h2

/-- Claim C2 (amended): after every mutation that touches prevReading,
currReading, arrears or paid (reading update, payment, direct field edit,
subscriber creation), the saved record satisfies the three identities,
provided the record's authoritative fields (and its stored remaining, which
roll-forward copies into arrears), the mutation's numeric arguments and the
unit price are whole numbers; with fractional values the derived fields are
rounded to integers and the identities can fail. -/
theorem invariants_after_mutation (m : Mutation) (r : Row) (p : ℚ)
    (hprev : qInt r.prevReading) (hcurr : qInt r.currReading) (harr : qInt r.arrears)
    (hpaid : qInt r.paid) (hrem : qInt r.remaining) (hp : qInt p)
    (hm : mutationIntegral m) :
    rowInvariants (applyMutation m r p) := by
  have h0 : qInt (0 : ℚ) := ⟨0, by norm_num⟩
  cases m with
  | readingUpdate v => exact recompute_row_invariants _ p hcurr hm hrem h0 hp
  | payment v => exact recompute_row_invariants _ p hprev hcurr harr hm hp
  | editArrears v => exact recompute_row_invariants _ p hprev hcurr hm hpaid hp
  | editName s => exact recompute_row_invariants _ p hprev hcurr harr hpaid hp
  | editPhone s => exact recompute_row_invariants _ p hprev hcurr harr hpaid hp
  | addSubscriber n ph mt prev curr arr pd =>
      exact recompute_row_invariants _ p hm.1 hm.2.1 hm.2.2.1 hm.2.2.2 hp

/-- Witness for the amended C2 at a concrete payment mutation. -/
theorem invariants_after_mutation_witness :
    rowInvariants (applyMutation (.payment 5) rowZero 700) :=
  invariants_after_mutation (.payment 5) rowZero 700
    ⟨0, by norm_num [rowZero]⟩ ⟨0, by norm_num [rowZero]⟩ ⟨0, by norm_num [rowZero]⟩
    ⟨0, by norm_num [rowZero]⟩ ⟨0, by norm_num [rowZero]⟩
    ⟨700, by norm_num⟩ ⟨5, by norm_num⟩

/-- The Arabic diacritics of `AR_DIAC` plus the tatweel character, deleted by
the first translation table of `ar_norm`. -/
def AR_DIAC_LIST : List Char :=
  ['ً', 'ٌ', 'ٍ', 'َ', 'ُ', 'ِ', 'ّ', 'ْ', 'ـ']

/-- The letter-variant map `AR_MAP`: hamza forms to bare alef, dotted-yaa
variant to yaa, taa-marbuta to haa. -/
def arMapChar (c : Char) : Char :=
  if c = 'أ' ∨ c = 'إ' ∨ c = 'آ' then 'ا'
  else if c = 'ى' then 'ي'
  else if c = 'ة' then 'ه'
  else c

/-- Python `str.strip()` on a character list. -/
def pyStripList (l : List Char) : List Char :=
  ((l.dropWhile Char.isWhitespace).reverse.dropWhile Char.isWhitespace).reverse

/-- Python `str.strip()`. -/
def pyStrip (s : String) : String := ⟨pyStripList s.data⟩

/-- Python `str.split()` with no separator: split on whitespace runs,
discarding empty pieces. -/
def pyWords (l : List Char) : List (List Char) :=
  (l.splitOnP Char.isWhitespace).filter (fun w => w ≠ [])

/-- Python `" ".join(pieces)`. -/
def joinSpaces : List (List Char) → List Char
  | [] => []
  | [w] => w
  | w :: ws => w ++ ' ' :: joinSpaces ws

/-- The function `ar_norm` from the source, on a character list: strip, delete diacritics
and tatweel, map letter variants, delete the two directional marks, collapse
whitespace to single spaces, lower-case. -/
def ar_norm_list (l : List Char) : List Char :=
  let l1 := pyStripList l
  let l2 := l1.filter (fun c => !(AR_DIAC_LIST.contains c))
  let l3 := l2.map arMapChar
  let l4 := l3.filter (fun c => c != '‏' && c != '‎')
  let l5 := joinSpaces (pyWords l4)
  l5.map Char.toLower

/-- The function `ar_norm` from the source. -/
def ar_norm (s : String) : String := ⟨ar_norm_list s.data⟩

/-- The function `normalize_for_match` from the source: `ar_norm` then remove all
spaces. -/
def normalize_for_match (s : String) : String :=
  ⟨(ar_norm_list s.data).filter (fun c => c != ' ')⟩

/-- The function `digits_only` from the source: keep only digit characters. -/
def digits_only (s : String) : String := ⟨s.data.filter Char.isDigit⟩

/-- All-digit string to a number (helper for `strip_trailing_dot_zero`;
an empty list parses as 0, matching Python `float(".0") = 0.0`). -/
def parseNatDigits (l : List Char) : Option Nat :=
  if l.all Char.isDigit then some (l.foldl (fun n c => n * 10 + (c.toNat - 48)) 0) else none

/-- The function `strip_trailing_dot_zero` from the source: strip, and if the text ends in
".0" and is otherwise an (optionally negated) digit string, return the
canonical decimal of `int(float(text))`; non-numeric ".0"-suffixed text falls
into the `except` branch and is returned stripped.  (Python would also accept
exotic float syntax such as underscores or exponents before the ".0", and
loses precision above 2^53; no claim exercises those corners.) -/
def strip_trailing_dot_zero (s : String) : String :=
  let l := pyStripList s.data
  if l.reverse.take 2 = ['0', '.'] then
    match l.dropLast.dropLast with
    | '-' :: ds =>
      match parseNatDigits ds with
      | some n => if n = 0 then ("0") else ⟨'-' :: (toString n).data⟩
      | none => ⟨l⟩
    | ds =>
      match parseNatDigits ds with
      | some n => ⟨(toString n).data⟩
      | none => ⟨l⟩
  else ⟨l⟩

/-- Python's substring test `needle in hay` on strings, as a Bool. -/
def substrB (needle hay : List Char) : Bool := decide (needle <:+: hay)

/-- The per-value hit test of `find_row_indices`: normalized substring, else
digit substring, else equality after stripping a trailing ".0". -/
def strHit (q_norm q_digits q_raw : String) (v : String) : Bool :=
  let v_norm := normalize_for_match v
  let v_digits := digits_only v
  if q_norm != "" && substrB q_norm.data v_norm.data then true
  else if q_digits != "" && substrB q_digits.data v_digits.data then true
  else strip_trailing_dot_zero v == strip_trailing_dot_zero q_raw

/-- Python `dict.fromkeys` de-duplication: keep the first occurrence of each index,
preserving order. -/
def dedupKeepFirst : List Nat → List Nat → List Nat
  | _, [] => []
  | seen, x :: xs =>
    if x ∈ seen then dedupKeepFirst seen xs else x :: dedupKeepFirst (x :: seen) xs

/-- The function `find_row_indices` from the source.  The DataFrame is modelled as an
association list from column header to the column's values rendered as
strings (`df[field].fillna("")` with `str(v)` applied per cell); a missing
column yields the empty result. -/
def find_row_indices (df : List (String × List String)) (field query : String) : List Nat :=
  match df.lookup field with
  | none => []
  | some vals =>
    let q_raw := pyStrip query
    let q_norm := normalize_for_match q_raw
    let q_digits := digits_only q_raw
    let hits := vals.enum.filterMap
      (fun p => if strHit q_norm q_digits q_raw p.2 then some p.1 else none)
    dedupKeepFirst [] hits

/-- Counterexample to claim C6: the query "0501234567" does not match a
record storing "501234567.0" — its digit string 0501234567 is not a substring
of the value's digit string 5012345670, its normalized text is not a
substring of the normalized value, and the ".0"-stripped forms differ — so
`find` returns no index at all. -/
theorem digit_query_leading_zero_no_match :
    find_row_indices [("رقم الهاتف", ["501234567.0"])] ("رقم الهاتف") ("0501234567") = [] ∧
    ¬ (0 ∈ find_row_indices [("رقم الهاتف", ["501234567.0"])] ("رقم الهاتف") ("0501234567")) := by
  decide

/-- Claim C6 (amended): the digit-substring rule matches a query whose digits
are a non-empty substring of the value's digits.  Against the stored decimal
artifact "501234567.0": the query "501234567" (without the example's leading
zero) is found, and the query "5670" is found purely by the digit rule (its
normalized text is not a substring of the normalized value, but its digits
are a substring of the value's digits 5012345670); the spec's original query
"0501234567" matches nothing because its digits are not such a substring. -/
theorem digit_rule_example :
    find_row_indices [("رقم الهاتف", ["501234567.0"])] ("رقم الهاتف") ("501234567") = [0] ∧
    find_row_indices [("رقم الهاتف", ["501234567.0"])] ("رقم الهاتف") ("5670") = [0] ∧
    ¬ ((normalize_for_match (pyStrip ("5670"))).data <:+:
        (normalize_for_match ("501234567.0")).data) ∧
    ((digits_only (pyStrip ("5670"))).data <:+: (digits_only ("501234567.0")).data) := by
  decide

/-- The basic latin lowercase letters (the image of `Char.toLower` on the
characters it changes). -/
def lowerAlpha : List Char :=
  ['a', 'b', 'c', 'd', 'e', 'f', 'g', 'h', 'i', 'j', 'k', 'l', 'm',
   'n', 'o', 'p', 'q', 'r', 's', 't', 'u', 'v', 'w', 'x', 'y', 'z']

/-- Lower-casing either fixes its argument or returns a basic lowercase
letter. -/
theorem toLower_cases (c : Char) : Char.toLower c = c ∨ Char.toLower c ∈ lowerAlpha := by
  unfold Char.toLower
  by_cases h : c.toNat ≥ 65 ∧ c.toNat ≤ 90
  · right
    rw [if_pos h]
    obtain ⟨h1, h2⟩ := h
    generalize hg : c.toNat = n at h1 h2 ⊢
    interval_cases n <;> decide
  · left
    rw [if_neg h]

/-- A character that every stage of `ar_norm`/`normalize_for_match` leaves
in place: not whitespace, not a diacritic, fixed by the letter-variant map,
not a directional mark, fixed by lower-casing, and not a space. -/
def inertChar (c : Char) : Bool :=
  !c.isWhitespace && !(AR_DIAC_LIST.contains c) && (arMapChar c == c) &&
    (c != '‏') && (c != '‎') && (Char.toLower c == c) && (c != ' ')

/-- Every basic lowercase letter is inert. -/
theorem lowerAlpha_inert : ∀ c ∈ lowerAlpha, inertChar c = true := by decide

/-- The letter-variant map is idempotent. -/
theorem arMapChar_idem (c : Char) : arMapChar (arMapChar c) = arMapChar c := by
  by_cases h1 : c = 'أ' ∨ c = 'إ' ∨ c = 'آ'
  · simp only [arMapChar, if_pos h1]
    decide
  · by_cases h2 : c = 'ى'
    · simp only [arMapChar, if_neg h1, if_pos h2]
      decide
    · by_cases h3 : c = 'ة'
      · simp only [arMapChar, if_neg h1, if_neg h2, if_pos h3]
        decide
      · simp only [arMapChar, if_neg h1, if_neg h2, if_neg h3]

/-- The letter-variant map never produces a diacritic. -/
theorem arMapChar_not_diac (c : Char) (h : AR_DIAC_LIST.contains c = false) :
    AR_DIAC_LIST.contains (arMapChar c) = false := by
  by_cases h1 : c = 'أ' ∨ c = 'إ' ∨ c = 'آ'
  · simp only [arMapChar, if_pos h1]
    decide
  · by_cases h2 : c = 'ى'
    · simp only [arMapChar, if_neg h1, if_pos h2]
      decide
    · by_cases h3 : c = 'ة'
      · simp only [arMapChar, if_neg h1, if_neg h2, if_pos h3]
        decide
      · simpa only [arMapChar, if_neg h1, if_neg h2, if_neg h3] using h

/-- A character reaching the lower-casing stage with the earlier stages'
guarantees is inert after lower-casing. -/
theorem inert_of_parts (c : Char)
    (hws : c.isWhitespace = false)
    (hd : AR_DIAC_LIST.contains c = false)
    (hm : arMapChar c = c)
    (hk1 : (c != '‏') = true)
    (hk2 : (c != '‎') = true) :
    inertChar (Char.toLower c) = true := by
  rcases toLower_cases c with h | h
  · rw [h]
    have hsp : (c != ' ') = true := by
      apply bne_iff_ne.mpr
      intro he
      rw [he] at hws
      exact absurd hws (by decide)
    simp only [inertChar, hws, hd, hm, hk1, hk2, hsp, beq_self_eq_true, Bool.not_false,
      Bool.and_self, Bool.and_true, Bool.true_and]
    rw [h]
    simp
  · exact lowerAlpha_inert _ h

/-- Characters of a piece produced by `splitOnP` come from the original list
and do not satisfy the splitting predicate. -/
theorem mem_of_mem_splitOnP {p : Char → Bool} :
    ∀ (l w : List Char), w ∈ l.splitOnP p → ∀ c ∈ w, c ∈ l ∧ p c = false := by
  intro l
  induction l with
  | nil =>
    intro w hw c hc
    rw [List.splitOnP_nil] at hw
    rcases List.mem_singleton.mp hw with h
    subst h
    simp at hc
  | cons a as ih =>
    intro w hw c hc
    rw [List.splitOnP_cons] at hw
    by_cases hpa : p a
    · rw [if_pos hpa] at hw
      rcases List.mem_cons.mp hw with h | h
      · subst h
        simp at hc
      · obtain ⟨h1, h2⟩ := ih w h c hc
        exact ⟨List.mem_cons_of_mem _ h1, h2⟩
    · rw [if_neg hpa] at hw
      obtain ⟨hd, tl, hsp⟩ := List.exists_cons_of_ne_nil (List.splitOnP_ne_nil p as)
      rw [hsp, List.modifyHead_cons] at hw
      rcases List.mem_cons.mp hw with h | h
      · subst h
        rcases List.mem_cons.mp hc with h2 | h2
        · subst h2
          exact ⟨List.mem_cons_self _ _, Bool.eq_false_iff.mpr hpa⟩
        · have hh := ih hd (by rw [hsp]; exact List.mem_cons_self _ _) c h2
          exact ⟨List.mem_cons_of_mem _ hh.1, hh.2⟩
      · have hh := ih w (by rw [hsp]; exact List.mem_cons_of_mem _ h) c hc
        exact ⟨List.mem_cons_of_mem _ hh.1, hh.2⟩

/-- Characters of a word of `pyWords l` come from `l` and are not
whitespace. -/
theorem mem_of_mem_pyWords (l w : List Char) (hw : w ∈ pyWords l) :
    ∀ c ∈ w, c ∈ l ∧ c.isWhitespace = false := by
  intro c hc
  unfold pyWords at hw
  exact mem_of_mem_splitOnP l w (List.mem_filter.mp hw).1 c hc

/-- A non-empty list without whitespace is a single word. -/
theorem pyWords_single (l : List Char) (hne : l ≠ [])
    (h : ∀ c ∈ l, c.isWhitespace = false) : pyWords l = [l] := by
  unfold pyWords
  rw [List.splitOnP_eq_single]
  · simp [hne]
  · intro x hx
    simp [h x hx]

/-- A character of `joinSpaces ws` is in one of the pieces or is the
separating space. -/
theorem mem_joinSpaces :
    ∀ (ws : List (List Char)) (c : Char), c ∈ joinSpaces ws →
      (∃ w ∈ ws, c ∈ w) ∨ c = ' ' := by
  intro ws
  induction ws with
  | nil =>
    intro c hc
    simp [joinSpaces] at hc
  | cons w vs ih =>
    intro c hc
    cases vs with
    | nil => exact Or.inl ⟨w, by simp, hc⟩
    | cons v us =>
      have he : joinSpaces (w :: v :: us) = w ++ ' ' :: joinSpaces (v :: us) := rfl
      rw [he] at hc
      rcases List.mem_append.mp hc with h | h
      · exact Or.inl ⟨w, by simp, h⟩
      · rcases List.mem_cons.mp h with h2 | h2
        · exact Or.inr h2
        · rcases ih c h2 with ⟨u, hu, hcu⟩ | h3
          · exact Or.inl ⟨u, List.mem_cons_of_mem _ hu, hcu⟩
          · exact Or.inr h3

/-- Every character of `normalize_for_match` output is inert. -/
theorem mem_normalize_inertChar (l : List Char) (c : Char)
    (hc : c ∈ (ar_norm_list l).filter (fun x => x != ' ')) : inertChar c = true := by
  obtain ⟨hmem, hne⟩ := List.mem_filter.mp hc
  simp only [ar_norm_list] at hmem
  obtain ⟨c₀, hc₀, hlow⟩ := List.mem_map.mp hmem
  rcases mem_joinSpaces _ _ hc₀ with ⟨w, hw, hcw⟩ | hsp
  · obtain ⟨hinl4, hwsc⟩ := mem_of_mem_pyWords _ w hw c₀ hcw
    obtain ⟨hin3, hmk⟩ := List.mem_filter.mp hinl4
    obtain ⟨c₁, hc₁, hmap⟩ := List.mem_map.mp hin3
    obtain ⟨hin1, hdk⟩ := List.mem_filter.mp hc₁
    have hdia : AR_DIAC_LIST.contains c₁ = false := by
      simpa using hdk
    obtain ⟨hk1, hk2⟩ := Bool.and_eq_true_iff.mp hmk
    subst hlow
    subst hmap
    exact inert_of_parts _ hwsc (arMapChar_not_diac _ hdia) (arMapChar_idem _) hk1 hk2
  · subst hsp
    rw [← hlow] at hne
    exact absurd hne (by decide)

/-- Unpack the components of inertness. -/
theorem inertChar_spec (c : Char) (h : inertChar c = true) :
    c.isWhitespace = false ∧ AR_DIAC_LIST.contains c = false ∧ arMapChar c = c ∧
    c ≠ '‏' ∧ c ≠ '‎' ∧ Char.toLower c = c ∧ c ≠ ' ' := by
  simp only [inertChar, Bool.and_eq_true, Bool.not_eq_true', beq_iff_eq, bne_iff_ne] at h
  tauto

/-- Dropping leading whitespace does not change a whitespace-free list. -/
theorem dropWhile_ws_eq_self (m : List Char) (hm : ∀ c ∈ m, c.isWhitespace = false) :
    m.dropWhile Char.isWhitespace = m := by
  cases m with
  | nil => rfl
  | cons a as =>
    rw [List.dropWhile_cons, if_neg (by simp [hm a (List.mem_cons_self a as)])]

/-- Stripping does not change a whitespace-free list. -/
theorem pyStripList_eq_self (l : List Char) (h : ∀ c ∈ l, c.isWhitespace = false) :
    pyStripList l = l := by
  unfold pyStripList
  rw [dropWhile_ws_eq_self l h,
    dropWhile_ws_eq_self _ (fun c hc => h c (List.mem_reverse.mp hc)),
    List.reverse_reverse]

/-- Normalization fixes a non-empty list of inert characters. -/
theorem inert_ar_norm_fixed (q : List Char) (hne : q ≠ [])
    (h : ∀ c ∈ q, inertChar c = true) :
    ar_norm_list q = q := by
  have hs := fun c hc => inertChar_spec c (h c hc)
  have e1 : pyStripList q = q := pyStripList_eq_self q (fun c hc => (hs c hc).1)
  have e2 : (q.filter fun c => !(AR_DIAC_LIST.contains c)) = q :=
    List.filter_eq_self.mpr (fun c hc => by simpa using (hs c hc).2.1)
  have e3 : q.map arMapChar = q := by
    have hm2 : q.map arMapChar = q.map id := List.map_congr_left (fun a ha => (hs a ha).2.2.1)
    rw [hm2, List.map_id]
  have e4 : (q.filter fun c => c != '‏' && c != '‎') = q :=
    List.filter_eq_self.mpr
      (fun c hc => by simp [bne_iff_ne, (hs c hc).2.2.2.1, (hs c hc).2.2.2.2.1])
  have e5 : pyWords q = [q] := pyWords_single q hne (fun c hc => (hs c hc).1)
  have e6 : q.map Char.toLower = q := by
    have hm3 : q.map Char.toLower = q.map id :=
      List.map_congr_left (fun a ha => (hs a ha).2.2.2.2.2.1)
    rw [hm3, List.map_id]
  simp only [ar_norm_list]
  rw [e1, e2, e3, e4, e5]
  have hjoin : joinSpaces [q] = q := rfl
  rw [hjoin, e6]

/-- The space-removal step also fixes a non-empty list of inert characters. -/
theorem inert_normalize_fixed (q : List Char) (hne : q ≠ [])
    (h : ∀ c ∈ q, inertChar c = true) :
    (ar_norm_list q).filter (fun x => x != ' ') = q := by
  rw [inert_ar_norm_fixed q hne h]
  exact List.filter_eq_self.mpr
    (fun c hc => by simp [bne_iff_ne, (inertChar_spec c (h c hc)).2.2.2.2.2.2])

/-- Membership in the keep-first de-duplication. -/
theorem mem_dedupKeepFirst :
    ∀ (l seen : List Nat) (a : Nat),
      a ∈ dedupKeepFirst seen l ↔ (a ∈ l ∧ a ∉ seen) := by
  intro l
  induction l with
  | nil =>
    intro seen a
    simp [dedupKeepFirst]
  | cons x xs ih =>
    intro seen a
    simp only [dedupKeepFirst]
    by_cases hx : x ∈ seen
    · rw [if_pos hx, ih seen a]
      constructor
      · rintro ⟨h1, h2⟩
        exact ⟨List.mem_cons_of_mem _ h1, h2⟩
      · rintro ⟨h1, h2⟩
        rcases List.mem_cons.mp h1 with rfl | h1
        · exact absurd hx h2
        · exact ⟨h1, h2⟩
    · rw [if_neg hx]
      constructor
      · intro hmem
        rcases List.mem_cons.mp hmem with rfl | hmem
        · exact ⟨List.mem_cons_self _ _, hx⟩
        · obtain ⟨h1, h2⟩ := (ih _ a).mp hmem
          exact ⟨List.mem_cons_of_mem _ h1, fun hs => h2 (List.mem_cons_of_mem _ hs)⟩
      · rintro ⟨h1, h2⟩
        rcases List.mem_cons.mp h1 with rfl | h1
        · exact List.mem_cons_self _ _
        · by_cases hax : a = x
          · subst hax
            exact List.mem_cons_self _ _
          · refine List.mem_cons_of_mem _ ((ih _ a).mpr ⟨h1, ?_⟩)
            intro hs
            rcases List.mem_cons.mp hs with h3 | h3
            · exact hax h3
            · exact h2 h3

/-- Claim C7: matcher substring completeness — for every record set, record,
field present on the records and non-empty substring q of the normalized
value of that record's field, `find` contains the record's index (it matches
already by the normalized-substring rule). -/
theorem find_row_indices_complete
    (df : List (String × List String)) (field q : String) (vals : List String)
    (i : Nat) (v : String)
    (hlk : df.lookup field = some vals)
    (hv : vals[i]? = some v)
    (hqne : q ≠ "")
    (hinf : q.data <:+: (normalize_for_match v).data) :
    i ∈ find_row_indices df field q := by
  have hqd : q.data ≠ [] := by
    intro hd
    apply hqne
    cases q with
    | mk data =>
      simp only at hd
      rw [hd]
  have hinert : ∀ c ∈ q.data, inertChar c = true := by
    intro c hc
    apply mem_normalize_inertChar v.data
    obtain ⟨s, t, hst⟩ := hinf
    show c ∈ (normalize_for_match v).data
    rw [← hst]
    simp [hc]
  have hws : ∀ c ∈ q.data, c.isWhitespace = false :=
    fun c hc => (inertChar_spec c (hinert c hc)).1
  have hstrip : pyStrip q = q := by
    cases q with
    | mk data =>
      simp only [pyStrip]
      rw [pyStripList_eq_self _ hws]
  have hnorm : normalize_for_match q = q := by
    cases q with
    | mk data =>
      simp only [normalize_for_match]
      congr 1
      exact inert_normalize_fixed data hqd hinert
  have hfind : find_row_indices df field q = dedupKeepFirst []
      ((vals.enum).filterMap (fun p =>
        if strHit (normalize_for_match (pyStrip q)) (digits_only (pyStrip q)) (pyStrip q) p.2
        then some p.1 else none)) := by
    unfold find_row_indices
    rw [hlk]
  rw [hfind, hstrip, hnorm]
  apply (mem_dedupKeepFirst _ [] i).mpr
  refine ⟨?_, by simp⟩
  apply List.mem_filterMap.mpr
  refine ⟨(i, v), ?_, ?_⟩
  · exact List.mk_mem_enum_iff_getElem?.mpr hv
  · have h1 : (q != "") = true := bne_iff_ne.mpr hqne
    have h2 : substrB q.data (normalize_for_match v).data = true := decide_eq_true hinf
    have hhit : strHit q (digits_only q) q v = true := by
      unfold strHit
      rw [if_pos (by rw [h1, h2]; rfl)]
    simp [hhit]

/-- Witness for C7: the query "حمد" is a substring of the normalized name
"احمد" and is found at index 0. -/
theorem find_row_indices_complete_witness :
    0 ∈ find_row_indices [("اسم المشترك", ["احمد"])] ("اسم المشترك") ("حمد") :=
  find_row_indices_complete [("اسم المشترك", ["احمد"])] ("اسم المشترك") ("حمد")
    ["احمد"] 0 "احمد" (by decide) (by decide) (by decide) (by decide)

/-- The five operationally-editable fields (`EDITABLE_FIELDS` in the source;
the same literal set appears inline in `get_field_mode_for_user`). -/
def EDITABLE_FIELDS : List String :=
  ["القراءة الحالية", "المسدد", "المتأخرات", "رقم الهاتف", "اسم المشترك"]

/-- One administrator account from `admins.json`: username, PIN, and the
per-field permission map (an association list, like the JSON object). -/
structure AdminUser where
  username : String
  pin : String
  per_field : List (String × String)
  deriving DecidableEq

/-- The function `get_field_mode_for_user` from the source: the first account whose
username matches is consulted; a truthy (non-empty) per-field entry wins,
otherwise the static default applies — "edit" for the five editable fields,
"read" for everything else.  An unknown username falls through to the same
static default. -/
def get_field_mode_for_user (users : List AdminUser) (username field : String) : String :=
  match users.find? (fun u => u.username == username) with
  | some u =>
    match u.per_field.lookup field with
    | some m => if m = "" then (if field ∈ EDITABLE_FIELDS then ("edit") else ("read")) else m
    | none => if field ∈ EDITABLE_FIELDS then ("edit") else ("read")
  | none => if field ∈ EDITABLE_FIELDS then ("edit") else ("read")

/-- Claim C8: permission resolution.  An explicit per-field entry (one of the
three legal modes) is returned as-is; an absent entry, or an unknown
administrator, resolves to the static default — "edit" for
{currReading, paid, arrears, phone, name}, "read" for every other field; in
particular an administrator with no entries resolves «الاستهلاك» to "read"
and «المسدد» to "edit". -/
theorem get_field_mode_spec :
    (∀ (users : List AdminUser) (name field : String) (u : AdminUser) (m : String),
      users.find? (fun x => x.username == name) = some u →
      u.per_field.lookup field = some m →
      m ∈ (["read", "edit", "hide"] : List String) →
      get_field_mode_for_user users name field = m) ∧
    (∀ (users : List AdminUser) (name field : String) (u : AdminUser),
      users.find? (fun x => x.username == name) = some u →
      u.per_field.lookup field = none →
      get_field_mode_for_user users name field =
        (if field ∈ EDITABLE_FIELDS then ("edit") else ("read"))) ∧
    (∀ (users : List AdminUser) (name field : String),
      users.find? (fun x => x.username == name) = none →
      get_field_mode_for_user users name field =
        (if field ∈ EDITABLE_FIELDS then ("edit") else ("read"))) ∧
    get_field_mode_for_user [⟨"علي", "1234", []⟩] ("علي") ("الاستهلاك") = "read" ∧
    get_field_mode_for_user [⟨"علي", "1234", []⟩] ("علي") ("المسدد") = "edit" := by
  refine ⟨?_, ?_, ?_, by decide, by decide⟩
  · intro users name field u m hf hl hm
    have hne : m ≠ "" := by
      intro he
      subst he
      exact absurd hm (by decide)
    unfold get_field_mode_for_user
    simp only [hf, hl]
    rw [if_neg hne]
  · intro users name field u hf hl
    unfold get_field_mode_for_user
    simp only [hf, hl]
  · intro users name field hf
    unfold get_field_mode_for_user
    simp only [hf]

/-- Witness for C8: a stored "hide" entry is returned; the two fallback
branches produce the documented defaults for a user with entries and for an
unknown user. -/
theorem get_field_mode_spec_witness :
    get_field_mode_for_user [⟨"علي", "1234", [("المتبقي", "hide")]⟩] ("علي") ("المتبقي") = "hide" ∧
    get_field_mode_for_user [⟨"علي", "1234", [("المتبقي", "hide")]⟩] ("علي") ("المسدد") = "edit" ∧
    get_field_mode_for_user [] ("سالم") ("المتبقي") = "read" := by
  refine ⟨?_, ?_, ?_⟩
  · exact get_field_mode_spec.1 [⟨"علي", "1234", [("المتبقي", "hide")]⟩] ("علي") ("المتبقي")
      ⟨"علي", "1234", [("المتبقي", "hide")]⟩ ("hide") (by decide) (by decide) (by decide)
  · have h := get_field_mode_spec.2.1 [⟨"علي", "1234", [("المتبقي", "hide")]⟩] ("علي") ("المسدد")
      ⟨"علي", "1234", [("المتبقي", "hide")]⟩ (by decide) (by decide)
    rw [h]
    decide
  · have h := get_field_mode_spec.2.2.1 [] ("سالم") ("المتبقي") (by decide)
    rw [h]
    decide

/-- The session modes used by the text router (`MODE_*` constants). -/
inductive Mode where
  | none
  | addReading
  | searchMeter
  | searchName
  | searchPhone
  | awaitValue
  | searchPay
  | addSubName
  | addSubPhone
  | addSubMeter
  | addSubPrev
  | addSubCurr
  | addSubArrears
  | addSubPaid
  | adminNewName
  | adminNewPin
  deriving DecidableEq

/-- The pending "add subscriber" draft (`context.user_data["new_sub"]`, a dict
whose keys are filled in flow order; a missing key is `none`). -/
structure Draft where
  name : Option String
  phone : Option String
  meter : Option String
  prev : Option ℚ
  curr : Option ℚ
  arrears : Option ℚ
  paid : Option ℚ
  deriving DecidableEq

/-- The per-user conversation session (`context.user_data`). -/
structure Session where
  mode : Mode
  selectedIndex : Option Nat
  editField : Option String
  newSub : Draft
  deriving DecidableEq

/-- One `log_event` line (timestamp omitted: wall-clock time). -/
structure LogEntry where
  user : String
  action : String
  amount : ℚ
  meter : String
  subscriber : String
  deriving DecidableEq

/-- The reply a handler sends back (one constructor per distinct
`reply_text` outcome the claims need). -/
inductive Reply where
  | noEditContext
  | recordMissing
  | invalidNumber
  | updated
  | promptPhone
  | promptMeter
  | promptPrev
  | promptCurr
  | promptArrears
  | promptPaid
  | subscriberAdded
  | unhandled
  deriving DecidableEq

/-- The effect of one handler call: new session, new record store, appended
log entries, whether the store was saved, and the reply sent. -/
structure StepResult where
  sess : Session
  store : List Row
  logs : List LogEntry
  saved : Bool
  reply : Reply
  deriving DecidableEq

/-- One inbound message: `val` is the stripped text and `parsed` models
Python `float(val)` — `some` a rational on success, `none` when the text is
not numeric (the `except` branch). -/
structure UserText where
  val : String
  parsed : Option ℚ
  deriving DecidableEq

/-- The function `handle_value_input` from the source.  The store is the loaded DataFrame
as a list of rows; `idx not in df.index` is `idx ≥ store.length`.  In the
final (text) branch only the two text columns of `EDITABLE_FIELDS` are
assignable in this model; the code would coerce the text into any other
column, which no flow reaches with a non-numeric column name. -/
def handle_value_input (sess : Session) (store : List Row) (user : String)
    (inp : UserText) (price : ℚ) : StepResult :=
  match sess.selectedIndex, sess.editField with
  | none, _ => ⟨{ sess with mode := .none }, store, [], false, .noEditContext⟩
  | some _, none => ⟨{ sess with mode := .none }, store, [], false, .noEditContext⟩
  | some idx, some col =>
    if col = "" then ⟨{ sess with mode := .none }, store, [], false, .noEditContext⟩
    else if h : idx < store.length then
      if col = "القراءة الحالية" then
        match inp.parsed with
        | none => ⟨sess, store, [], false, .invalidNumber⟩
        | some v =>
          let r1 := { store[idx] with
            prevReading := store[idx].currReading
            arrears := store[idx].remaining
            paid := 0
            currReading := v }
          ⟨{ sess with mode := .none }, store.set idx (recompute_row r1 price),
            [⟨user, "update_reading", 0, r1.meter, r1.name⟩], true, .updated⟩
      else if col = "المسدد" then
        match inp.parsed with
        | none => ⟨sess, store, [], false, .invalidNumber⟩
        | some v =>
          let r1 := { store[idx] with paid := v }
          ⟨{ sess with mode := .none }, store.set idx (recompute_row r1 price),
            [⟨user, "pay", v, r1.meter, r1.name⟩], true, .updated⟩
      else if col ∈ EDITABLE_FIELDS ∧ col ≠ "اسم المشترك" ∧ col ≠ "رقم الهاتف" then
        match inp.parsed with
        | none => ⟨sess, store, [], false, .invalidNumber⟩
        | some v =>
          ⟨{ sess with mode := .none },
            store.set idx (recompute_row { store[idx] with arrears := v } price),
            [], true, .updated⟩
      else
        let r1 := if col = "اسم المشترك" then { store[idx] with name := inp.val }
          else if col = "رقم الهاتف" then { store[idx] with phone := inp.val }
          else store[idx]
        ⟨{ sess with mode := .none }, store.set idx (recompute_row r1 price),
          [], true, .updated⟩
    else ⟨{ sess with mode := .none }, store, [], false, .recordMissing⟩

/-- Build the new record from the completed draft, defaulting the text
columns to "" and the numeric columns to 0 (the `BASE_COLS` fill loop). -/
def draftToRow (d : Draft) : Row :=
  { name := d.name.getD (""), phone := d.phone.getD (""), meter := d.meter.getD (""),
    prevReading := d.prev.getD 0, currReading := d.curr.getD 0,
    consumption := 0, consumptionValue := 0, arrears := d.arrears.getD 0,
    total := 0, paid := d.paid.getD 0, remaining := 0,
    aliasUnits := none, aliasValue := none }

/-- The function `handle_add_subscriber_flow` from the source: the strict linear sequence
name → phone → meter → prevReading → currReading → arrears → paid; each
numeric step re-prompts without advancing on a parse failure; the final step
appends the recomputed record and selects its index. -/
def handle_add_subscriber_flow (sess : Session) (store : List Row)
    (inp : UserText) (price : ℚ) : StepResult :=
  let d := sess.newSub
  match sess.mode with
  | .addSubName =>
    ⟨{ sess with mode := .addSubPhone, newSub := { d with name := some inp.val } },
      store, [], false, .promptPhone⟩
  | .addSubPhone =>
    ⟨{ sess with mode := .addSubMeter, newSub := { d with phone := some inp.val } },
      store, [], false, .promptMeter⟩
  | .addSubMeter =>
    ⟨{ sess with mode := .addSubPrev, newSub := { d with meter := some inp.val } },
      store, [], false, .promptPrev⟩
  | .addSubPrev =>
    match inp.parsed with
    | none => ⟨sess, store, [], false, .invalidNumber⟩
    | some v =>
      ⟨{ sess with mode := .addSubCurr, newSub := { d with prev := some v } },
        store, [], false, .promptCurr⟩
  | .addSubCurr =>
    match inp.parsed with
    | none => ⟨sess, store, [], false, .invalidNumber⟩
    | some v =>
      ⟨{ sess with mode := .addSubArrears, newSub := { d with curr := some v } },
        store, [], false, .promptArrears⟩
  | .addSubArrears =>
    match inp.parsed with
    | none => ⟨sess, store, [], false, .invalidNumber⟩
    | some v =>
      ⟨{ sess with mode := .addSubPaid, newSub := { d with arrears := some v } },
        store, [], false, .promptPaid⟩
  | .addSubPaid =>
    match inp.parsed with
    | none => ⟨sess, store, [], false, .invalidNumber⟩
    | some v =>
      let d1 := { d with paid := some v }
      ⟨{ sess with mode := .none, newSub := d1, selectedIndex := some store.length },
        store ++ [recompute_row (draftToRow d1) price], [], true, .subscriberAdded⟩
  | _ => ⟨sess, store, [], false, .unhandled⟩

/-- Claim C9: validation-error atomicity.  In `AwaitValue` on a numeric field
with a live selected record, and in each numeric step of the add-subscriber
flow, non-numeric input produces only a re-prompt: the session (mode,
selection, edit field, draft) is returned unchanged, the store is neither
changed nor saved, and nothing is logged. -/
theorem validation_error_atomic :
    (∀ (sess : Session) (store : List Row) (user : String) (inp : UserText) (price : ℚ)
      (idx : Nat) (col : String),
      sess.mode = Mode.awaitValue →
      sess.selectedIndex = some idx →
      idx < store.length →
      sess.editField = some col →
      col ∈ (["القراءة الحالية", "المسدد", "المتأخرات"] : List String) →
      inp.parsed = none →
      handle_value_input sess store user inp price =
        ⟨sess, store, [], false, .invalidNumber⟩) ∧
    (∀ (sess : Session) (store : List Row) (inp : UserText) (price : ℚ),
      sess.mode ∈ [Mode.addSubPrev, Mode.addSubCurr, Mode.addSubArrears, Mode.addSubPaid] →
      inp.parsed = none →
      handle_add_subscriber_flow sess store inp price =
        ⟨sess, store, [], false, .invalidNumber⟩) := by
  constructor
  · intro sess store user inp price idx col hmode hsel hlen hedit hcol hparse
    have hcol3 : col = "القراءة الحالية" ∨ col = "المسدد" ∨ col = "المتأخرات" := by
      simpa using hcol
    unfold handle_value_input
    rw [hsel, hedit]
    rcases hcol3 with rfl | rfl | rfl
    · simp only [dif_pos hlen, hparse]
      simp
    · simp only [dif_pos hlen, hparse]
      simp
    · simp only [dif_pos hlen, hparse]
      simp [EDITABLE_FIELDS]
  · intro sess store inp price hmode hparse
    have hm4 : sess.mode = Mode.addSubPrev ∨ sess.mode = Mode.addSubCurr ∨
        sess.mode = Mode.addSubArrears ∨ sess.mode = Mode.addSubPaid := by
      simpa using hmode
    unfold handle_add_subscriber_flow
    rcases hm4 with hm | hm | hm | hm <;> rw [hm] <;> simp only [hparse]

/-- Witness for C9: concrete non-numeric input in `AwaitValue` on «المسدد»
and in the prevReading step of the add-subscriber flow. -/
theorem validation_error_atomic_witness :
    handle_value_input
        ⟨Mode.awaitValue, some 0, some ("المسدد"), ⟨none, none, none, none, none, none, none⟩⟩
        [rowZero] ("مدير") ⟨"abc", none⟩ 700 =
      ⟨⟨Mode.awaitValue, some 0, some ("المسدد"), ⟨none, none, none, none, none, none, none⟩⟩,
        [rowZero], [], false, .invalidNumber⟩ ∧
    handle_add_subscriber_flow
        ⟨Mode.addSubPrev, none, none, ⟨some ("احمد"), some ("77"), some ("123"), none, none, none, none⟩⟩
        [] ⟨"abc", none⟩ 700 =
      ⟨⟨Mode.addSubPrev, none, none, ⟨some ("احمد"), some ("77"), some ("123"), none, none, none, none⟩⟩,
        [], [], false, .invalidNumber⟩ := by
  constructor
  · exact validation_error_atomic.1
      ⟨Mode.awaitValue, some 0, some ("المسدد"), ⟨none, none, none, none, none, none, none⟩⟩
      [rowZero] ("مدير") ⟨"abc", none⟩ 700 0 ("المسدد") rfl rfl (by decide) rfl (by decide) rfl
  · exact validation_error_atomic.2
      ⟨Mode.addSubPrev, none, none, ⟨some ("احمد"), some ("77"), some ("123"), none, none, none, none⟩⟩
      [] ⟨"abc", none⟩ 700 (by decide) rfl

/-- Claim C10: a committed payment replaces the record's paid field outright
with the entered amount (not added to the previous paid value), and the
activity-log entry for the "pay" action records that same amount. -/
theorem payment_replaces_paid
    (sess : Session) (store : List Row) (user : String) (inp : UserText)
    (price v : ℚ) (idx : Nat) (r : Row)
    (hsel : sess.selectedIndex = some idx)
    (hedit : sess.editField = some ("المسدد"))
    (hr : store[idx]? = some r)
    (hparse : inp.parsed = some v) :
    (handle_value_input sess store user inp price).store[idx]? =
      some (recompute_row { r with paid := v } price) ∧
    (recompute_row { r with paid := v } price).paid = v ∧
    (handle_value_input sess store user inp price).logs =
      [⟨user, "pay", v, r.meter, r.name⟩] ∧
    (handle_value_input sess store user inp price).saved = true := by
  obtain ⟨hlen, hget⟩ := List.getElem?_eq_some_iff.mp hr
  have hstep : handle_value_input sess store user inp price =
      ⟨{ sess with mode := .none },
        store.set idx (recompute_row { r with paid := v } price),
        [⟨user, "pay", v, r.meter, r.name⟩], true, .updated⟩ := by
    unfold handle_value_input
    rw [hsel, hedit]
    simp only [dif_pos hlen, hparse, hget]
    simp
  rw [hstep]
  refine ⟨?_, rfl, rfl, rfl⟩
  exact List.getElem?_set_self (by simpa using hlen)

/-- Witness for C10: paying 25 on a record whose paid field was 30 stores
paid 25. -/
theorem payment_replaces_paid_witness :
    (handle_value_input
        ⟨Mode.awaitValue, some 0, some ("المسدد"), ⟨none, none, none, none, none, none, none⟩⟩
        [rollForwardStart] ("مدير") ⟨"25", some 25⟩ 700).store[0]? =
      some (recompute_row { rollForwardStart with paid := 25 } 700) ∧
    (recompute_row { rollForwardStart with paid := 25 } 700).paid = 25 ∧
    (handle_value_input
        ⟨Mode.awaitValue, some 0, some ("المسدد"), ⟨none, none, none, none, none, none, none⟩⟩
        [rollForwardStart] ("مدير") ⟨"25", some 25⟩ 700).logs =
      [⟨"مدير", "pay", 25, rollForwardStart.meter, rollForwardStart.name⟩] ∧
    (handle_value_input
        ⟨Mode.awaitValue, some 0, some ("المسدد"), ⟨none, none, none, none, none, none, none⟩⟩
        [rollForwardStart] ("مدير") ⟨"25", some 25⟩ 700).saved = true :=
  payment_replaces_paid
    ⟨Mode.awaitValue, some 0, some ("المسدد"), ⟨none, none, none, none, none, none, none⟩⟩
    [rollForwardStart] ("مدير") ⟨"25", some 25⟩ 700 25 0 rollForwardStart
    rfl rfl rfl rfl
